import Mathlib

/-!
Verification of the forensic persistence and query layer declared in
src/vmm/fc.h (MemProcFS forensic sub-system).  The header declares the
data model (FCSQL_INSERTSTRTABLE, FC_MAP_TIMELINEENTRY, FCOB_MAP_TIMELINE,
FC_CONTEXT) and the operations (Fc_SqlReserve / Fc_SqlReserveReturn,
Fc_SqlExec, Fc_SqlQueryN, Fc_SqlInsertStr, FcTimelineMap_GetFromIdRange,
FcTimeline_GetIdFromPosition) together with their behavioural contracts in
doc comments.  The implementation bodies are not part of the sources, so
the operations are modelled from the specification, faithful to its words;
the constants and the static action-string table are taken verbatim from
the header.
-/

namespace FC

-- Constants defined in src/vmm/fc.h.
def FC_SQL_POOL_CONNECTION_NUM : Nat := 4

def FC_LINELENGTH_TIMELINE_UTF8 : Nat := 64

def FC_LINELENGTH_TIMELINE_JSON : Nat := 110

def FC_TIMELINE_ACTION_NONE : Nat := 0

def FC_TIMELINE_ACTION_CREATE : Nat := 1

def FC_TIMELINE_ACTION_MODIFY : Nat := 2

def FC_TIMELINE_ACTION_READ : Nat := 3

def FC_TIMELINE_ACTION_DELETE : Nat := 4

def FC_TIMELINE_ACTION_MAX : Nat := 4

-- The static action-code table from src/vmm/fc.h (FC_TIMELINE_ACTION_STR):
-- an array of FC_TIMELINE_ACTION_MAX + 1 three-character codes.
def FC_TIMELINE_ACTION_STR : List String := ["---", "CRE", "MOD", "RD ", "DEL"]

-- Status codes of the embedded SQL backend referenced by the fc.h
-- contracts (sqlite3.h): SQLITE_OK, and the two transient busy statuses.
def SQLITE_OK : Nat := 0

def SQLITE_BUSY : Nat := 5

def SQLITE_LOCKED : Nat := 6

/-- Descriptor returned by Fc_SqlInsertStr (FCSQL_INSERTSTRTABLE in fc.h):
assigned row identifier, WCHAR count, UTF-8 byte count, JSON byte count,
each excluding the terminating NULL. -/
structure FCSQL_INSERTSTRTABLE where
  id : Nat
  cwsz : Nat
  cbu : Nat
  cbj : Nat
deriving Repr, DecidableEq

/-- A persisted timeline row (FC_MAP_TIMELINEENTRY in fc.h): identifier,
timestamp, category tag, action tag, process id, opaque payload, byte offset
of the rendered line in the UTF-8 flat file, byte offset in the JSON flat
file, and rendered-text character count. -/
structure FC_MAP_TIMELINEENTRY where
  id : Nat
  ft : Nat
  tp : Nat
  ac : Nat
  pid : Nat
  data64 : Nat
  cszuOffset : Nat
  cszjOffset : Nat
  cwszText : Nat
deriving Repr, DecidableEq

/-- Modelled from the spec: the body of Fc_SqlReserveReturn is not among the
sources (only its declaration in fc.h is).  Per the header contract the
parameter is optional (may be NULL) and the return value is always NULL. -/
def Fc_SqlReserveReturn (hSql : Option Nat) : Option Nat := none

/-- The shared-counter portion of FC_CONTEXT.db relevant to the insertion
path: qwIdStr is the monotonically increasing interned-string identifier
counter. -/
structure FcDbState where
  qwIdStr : Nat
deriving Repr, DecidableEq

/-- One invocation of the insertion path, abstracting its inputs: the WCHAR
count of the input string, the byte counts of its UTF-8 and JSON-escaped
encodings, and whether the backend insert succeeds after identifier
assignment. -/
structure InsertCall where
  cwsz : Nat
  cbu : Nat
  cbj : Nat
  backendOk : Bool
deriving Repr, DecidableEq

/-- Modelled from the spec: the body of Fc_SqlInsertStr is not among the
sources (only its declaration in fc.h is).  Per the header and spec: input
text longer than 2048 characters is rejected before any identifier is
consumed; otherwise the next identifier is obtained by incrementing the
shared counter, then the backend insert is attempted; a backend failure
after identifier assignment returns failure but the identifier stays
consumed (a permitted gap). -/
def Fc_SqlInsertStr (c : InsertCall) (st : FcDbState) :
    Option FCSQL_INSERTSTRTABLE × FcDbState :=
  if 2048 < c.cwsz then (none, st)
  else if c.backendOk then
    (some ⟨st.qwIdStr + 1, c.cwsz, c.cbu, c.cbj⟩, ⟨st.qwIdStr + 1⟩)
  else
    (none, ⟨st.qwIdStr + 1⟩)

/-- Run a sequence of insertString calls against a state, collecting the
descriptors of the successful calls in call order (which, the counter being
incremented under the context lock, is the order the counter handed out
identifiers). -/
def runInserts : List InsertCall → FcDbState → List FCSQL_INSERTSTRTABLE × FcDbState
  | [], st => ([], st)
  | c :: cs, st =>
    match Fc_SqlInsertStr c st with
    | (some d, st') =>
      let rest := runInserts cs st'
      (d :: rest.1, rest.2)
    | (none, st') => runInserts cs st'

/-- Timeline portion of the forensic context: the shared identifier counter,
the persisted timeline-row table (in insertion order), and the per-category
cumulative flat-file sizes (FC_TIMELINE_INFO.dwFileSizeUTF8 / dwFileSizeJSON,
indexed by category). -/
structure FcTimelineState where
  qwIdStr : Nat
  rows : List FC_MAP_TIMELINEENTRY
  sizeUTF8 : Nat → Nat
  sizeJSON : Nat → Nat

/-- One timeline insertion, abstracting its inputs: target category, row
fields, and the byte lengths of the rendered UTF-8 and JSON lines appended
to the category flat files. -/
structure TimelineInsert where
  tp : Nat
  ft : Nat
  ac : Nat
  pid : Nat
  data64 : Nat
  cwszText : Nat
  cbLineUTF8 : Nat
  cbLineJSON : Nat

/-- Modelled from the spec: the timeline insertion path is not among the
sources (fc.h only declares the row type).  Per the spec the new row takes
the next identifier from the shared counter and records as its offset
columns the current cumulative flat-file sizes of its category, which then
advance by the rendered line lengths. -/
def timelineInsert (op : TimelineInsert) (st : FcTimelineState) : FcTimelineState :=
  let id := st.qwIdStr + 1
  { qwIdStr := id
    rows := st.rows ++ [⟨id, op.ft, op.tp, op.ac, op.pid, op.data64,
                         st.sizeUTF8 op.tp, st.sizeJSON op.tp, op.cwszText⟩]
    sizeUTF8 := fun t => if t = op.tp then st.sizeUTF8 op.tp + op.cbLineUTF8 else st.sizeUTF8 t
    sizeJSON := fun t => if t = op.tp then st.sizeJSON op.tp + op.cbLineJSON else st.sizeJSON t }

/-- The freshly initialized timeline state: no rows, empty flat files. -/
def timelineInit : FcTimelineState :=
  { qwIdStr := 0, rows := [], sizeUTF8 := fun _ => 0, sizeJSON := fun _ => 0 }

/-- Run a sequence of timeline insertions. -/
def runTimeline : List TimelineInsert → FcTimelineState → FcTimelineState
  | [], st => st
  | op :: ops, st => runTimeline ops (timelineInsert op st)

/-- The stored rows of one category, in stored (identifier) order. -/
def catRows (st : FcTimelineState) (tp : Nat) : List FC_MAP_TIMELINEENTRY :=
  st.rows.filter (fun r => r.tp == tp)

/-- The load-bearing timeline invariant: every stored row's identifier is at
most the counter and its offset columns are at most its category's current
flat-file sizes; and within every category, identifiers are strictly
increasing while both offset columns are non-decreasing in stored order. -/
def TimelineGood (st : FcTimelineState) : Prop :=
  (∀ r ∈ st.rows, r.id ≤ st.qwIdStr ∧ r.cszuOffset ≤ st.sizeUTF8 r.tp ∧
     r.cszjOffset ≤ st.sizeJSON r.tp) ∧
  ∀ tp, List.Pairwise
    (fun a b => a.id < b.id ∧ a.cszuOffset ≤ b.cszuOffset ∧ a.cszjOffset ≤ b.cszjOffset)
    (catRows st tp)

/-- The starting byte offset of a row's rendered line in the flat file
selected by fJSON (JSON file when true, UTF-8 file otherwise). -/
def entryOffset (fJSON : Bool) (r : FC_MAP_TIMELINEENTRY) : Nat :=
  if fJSON then r.cszjOffset else r.cszuOffset

/-- The last row of the list whose starting offset in the selected flat file
is at most pos, if any: the ordered lookup against the offset column. -/
def lastRowLE (fJSON : Bool) (pos : Nat) :
    List FC_MAP_TIMELINEENTRY → Option FC_MAP_TIMELINEENTRY
  | [] => none
  | r :: rs =>
    match lastRowLE fJSON pos rs with
    | some r' => some r'
    | none => if entryOffset fJSON r ≤ pos then some r else none

/-- Modelled from the spec: the body of FcTimeline_GetIdFromPosition is not
among the sources (only its declaration in fc.h is).  Per the spec it is an
ordered lookup against the offset column of the selected category's rows:
the row whose rendered line contains the byte offset, i.e. the greatest
identifier whose starting offset is ≤ the position; a position before the
first row resolves to the first row.  Fails only when the table is empty. -/
def FcTimeline_GetIdFromPosition (rows : List FC_MAP_TIMELINEENTRY)
    (fJSON : Bool) (qwFilePos : Nat) : Option Nat :=
  match rows with
  | [] => none
  | r0 :: _ =>
    match lastRowLE fJSON qwFilePos rows with
    | some r => some r.id
    | none => some r0.id

/-- Modelled from the spec: the body of FcTimelineMap_GetFromIdRange is not
among the sources (only its declaration in fc.h is).  Per the spec it
returns up to cId rows with identifier ≥ qwId in ascending identifier
order, category 0 meaning all categories; an empty result is success and a
failure is returned only on backend error. -/
def FcTimelineMap_GetFromIdRange (backendErr : Bool)
    (rows : List FC_MAP_TIMELINEENTRY) (dwTimelineType : Nat)
    (qwId : Nat) (cId : Nat) : Option (List FC_MAP_TIMELINEENTRY) :=
  if backendErr then none
  else
    some ((rows.filter
      (fun r => (dwTimelineType == 0 || r.tp == dwTimelineType) &&
        decide (qwId ≤ r.id))).take cId)

/-- The timeline result-set object (FCOB_MAP_TIMELINE in fc.h): one shared
text allocation (wszMultiText of cbMultiText characters) and the map
entries, each view recorded as its starting offset and length inside the
shared allocation together with the row it renders. -/
structure FCOB_MAP_TIMELINE where
  wszMultiText : List Char
  cbMultiText : Nat
  pMap : List (Nat × Nat × FC_MAP_TIMELINEENTRY)

/-- The row views in order: each row's view starts where the previous row's
rendered line ended inside the shared allocation. -/
def buildViews (render : FC_MAP_TIMELINEENTRY → List Char) :
    Nat → List FC_MAP_TIMELINEENTRY → List (Nat × Nat × FC_MAP_TIMELINEENTRY)
  | _, [] => []
  | off, r :: rs => (off, (render r).length, r) :: buildViews render (off + (render r).length) rs

/-- Modelled from the spec: the result-set construction inside
FcTimelineMap_GetFromIdRange is not among the sources.  Per the spec it
builds one shared text allocation sized to the sum of the rendered line
lengths of the returned rows, renders each row's line into it, and produces
one row view per row pointing into that allocation. -/
def buildTimelineMap (render : FC_MAP_TIMELINEENTRY → List Char)
    (rows : List FC_MAP_TIMELINEENTRY) : FCOB_MAP_TIMELINE :=
  let txt := (rows.map render).flatten
  { wszMultiText := txt, cbMultiText := txt.length, pMap := buildViews render 0 rows }

/-- One hundred concrete timeline rows with identifiers 1..100 in category 1,
each with a 64-byte UTF-8 line and a 110-byte JSON line at the matching
cumulative offsets. -/
def rows100 : List FC_MAP_TIMELINEENTRY :=
  (List.range 100).map (fun i => ⟨i + 1, 0, 1, 0, 0, 0, 64 * i, 110 * i, 64⟩)

/-- The effective number of slots of the connection pool: in single-thread
mode the pool behaves as if it had exactly one slot regardless of the
configured size FC_SQL_POOL_CONNECTION_NUM. -/
def poolSize (fSingleThread : Bool) : Nat :=
  if fSingleThread then 1 else FC_SQL_POOL_CONNECTION_NUM

/-- Modelled from the spec: the connection pool implementation is not among
the sources (fc.h declares the slot arrays hEvent / hSql and the
single-thread flag).  A state is the number of handles currently checked
out; an acquire completes only when a slot is free and a release requires a
checked-out handle. -/
inductive PoolStep (single : Bool) : Nat → Nat → Prop
  | acquire (n : Nat) : n + 1 ≤ poolSize single → PoolStep single n (n + 1)
  | release (n : Nat) : 0 < n → PoolStep single n (n - 1)

/-- Pool states reachable from the initial all-free state by acquire and
release transitions. -/
inductive PoolReachable (single : Bool) : Nat → Prop
  | init : PoolReachable single 0
  | step (n m : Nat) : PoolReachable single n → PoolStep single n m → PoolReachable single m

/-- Whether a backend status is the transient busy/locked status that the
query facade retries on. -/
def isBusyStatus (rc : Nat) : Bool := rc == SQLITE_BUSY || rc == SQLITE_LOCKED

/-- Modelled from the spec: the bounded busy-retry loop shared by Fc_SqlExec
and Fc_SqlQueryN is not among the sources.  The backend is abstracted as the
sequence of statuses it returns on successive attempts; the loop retries
while the status is busy/locked and fuel remains, then surfaces the status
unconverted. -/
def sqlRetryLoop (statuses : Nat → Nat) : Nat → Nat → Nat
  | 0, i => statuses i
  | fuel + 1, i =>
    if isBusyStatus (statuses i) then sqlRetryLoop statuses fuel (i + 1) else statuses i

/-- Modelled from the spec: the body of Fc_SqlExec is not among the sources
(only its declaration in fc.h is).  It acquires a pooled connection, runs
the statement with bounded busy-retry, and releases the connection on every
exit path before returning the backend status unconverted.  The pool is
abstracted as its checked-out count. -/
def Fc_SqlExec (retryBound : Nat) (statuses : Nat → Nat) (pool : Nat) : Nat × Nat :=
  let poolAcquired := pool + 1
  let rc := sqlRetryLoop statuses retryBound 0
  (rc, poolAcquired - 1)

/-- Modelled from the spec: the body of Fc_SqlQueryN is not among the sources
(only its declaration in fc.h is).  Like Fc_SqlExec it runs with bounded
busy-retry and releases the connection on every exit path; on success it
collects up to cResultValues numeric results. -/
def Fc_SqlQueryN (retryBound : Nat) (statuses : Nat → Nat)
    (queryResults : List Nat) (cResultValues : Nat) (pool : Nat) :
    (Nat × List Nat) × Nat :=
  let poolAcquired := pool + 1
  let rc := sqlRetryLoop statuses retryBound 0
  ((rc, if rc == SQLITE_OK then queryResults.take cResultValues else []), poolAcquired - 1)

end FC

namespace FC

theorem runInserts_bounds (calls : List InsertCall) (st : FcDbState) :
    st.qwIdStr ≤ (runInserts calls st).2.qwIdStr ∧
    ∀ d ∈ (runInserts calls st).1,
      st.qwIdStr < d.id ∧ d.id ≤ (runInserts calls st).2.qwIdStr := by
  induction calls generalizing st with
  | nil => simp [runInserts]
  | cons c cs ih =>
    by_cases h1 : 2048 < c.cwsz
    · simpa [runInserts, Fc_SqlInsertStr, h1] using ih st
    · by_cases h2 : c.backendOk
      · have ihs := ih ⟨st.qwIdStr + 1⟩
        simp only [runInserts, Fc_SqlInsertStr, if_neg h1, if_pos h2]
        refine ⟨le_trans (Nat.le_succ _) ihs.1, ?_⟩
        intro d hd
        rcases List.mem_cons.mp hd with hd | hd
        · subst hd
          exact ⟨Nat.lt_succ_self _, ihs.1⟩
        · rcases ihs.2 d hd with ⟨hlt, hle⟩
          exact ⟨lt_of_le_of_lt (Nat.le_succ _) hlt, hle⟩
      · have ihs := ih ⟨st.qwIdStr + 1⟩
        simp only [runInserts, Fc_SqlInsertStr, if_neg h1, if_neg h2]
        refine ⟨le_trans (Nat.le_succ _) ihs.1, ?_⟩
        intro d hd
        rcases ihs.2 d hd with ⟨hlt, hle⟩
        exact ⟨lt_of_le_of_lt (Nat.le_succ _) hlt, hle⟩

theorem runInserts_ids_sorted (calls : List InsertCall) (st : FcDbState) :
    List.Pairwise (fun a b : FCSQL_INSERTSTRTABLE => a.id < b.id)
      (runInserts calls st).1 := by
  induction calls generalizing st with
  | nil => simp [runInserts]
  | cons c cs ih =>
    by_cases h1 : 2048 < c.cwsz
    · simpa [runInserts, Fc_SqlInsertStr, h1] using ih st
    · by_cases h2 : c.backendOk
      · simp only [runInserts, Fc_SqlInsertStr, if_neg h1, if_pos h2]
        refine List.pairwise_cons.mpr ⟨?_, ih ⟨st.qwIdStr + 1⟩⟩
        intro d hd
        exact ((runInserts_bounds cs ⟨st.qwIdStr + 1⟩).2 d hd).1
      · simpa [runInserts, Fc_SqlInsertStr, h1, h2] using ih ⟨st.qwIdStr + 1⟩

end FC

/-- C2: for any sequence of insertString calls, the identifiers returned in
the descriptors are pairwise distinct and strictly increasing in the order
the shared counter handed them out; identifiers are unique and increasing
but not necessarily contiguous, as the concrete run with a failing middle
backend insert shows by returning identifiers 1 and 3. -/
theorem C2_insert_ids_distinct_increasing (calls : List FC.InsertCall) (st : FC.FcDbState) :
    List.Pairwise (fun a b : FC.FCSQL_INSERTSTRTABLE => a.id < b.id)
      (FC.runInserts calls st).1 ∧
    List.Pairwise (fun a b : FC.FCSQL_INSERTSTRTABLE => a.id ≠ b.id)
      (FC.runInserts calls st).1 ∧
    (FC.runInserts [⟨1, 1, 1, true⟩, ⟨1, 1, 1, false⟩, ⟨1, 1, 1, true⟩]
       ⟨0⟩).1.map (fun d => d.id) = [1, 3] := by
  refine ⟨FC.runInserts_ids_sorted calls st, ?_, by decide⟩
  exact (FC.runInserts_ids_sorted calls st).imp (fun h => Nat.ne_of_lt h)

/-- C10: Fc_SqlReserveReturn returns NULL for every input, including a NULL
handle, so releasing a handle never reports a distinct error through its
return value and releasing NULL is accepted. -/
theorem C10_reserveReturn_always_null :
    (∀ h : Option Nat, FC.Fc_SqlReserveReturn h = none) ∧
    FC.Fc_SqlReserveReturn none = none := by
  exact ⟨fun _ => rfl, rfl⟩

/-- C9: every timeline action tag lies in the five-value range 0..4
(none, create, modify, read, delete); the static table maps each tag to
exactly the 3-character code "---", "CRE", "MOD", "RD " or "DEL"; the UTF-8
line target width is 64 and the JSON line target width is 110. -/
theorem C9_action_codes_and_line_widths (ac : Nat)
    (hac : ac ≤ FC.FC_TIMELINE_ACTION_MAX) :
    (ac = FC.FC_TIMELINE_ACTION_NONE ∨ ac = FC.FC_TIMELINE_ACTION_CREATE ∨
     ac = FC.FC_TIMELINE_ACTION_MODIFY ∨ ac = FC.FC_TIMELINE_ACTION_READ ∨
     ac = FC.FC_TIMELINE_ACTION_DELETE) ∧
    FC.FC_TIMELINE_ACTION_STR.get? ac =
      some (["---", "CRE", "MOD", "RD ", "DEL"].get ⟨ac, Nat.lt_succ_of_le hac⟩) ∧
    (FC.FC_TIMELINE_ACTION_STR.get? ac).all (fun s => s.length = 3) ∧
    FC.FC_LINELENGTH_TIMELINE_UTF8 = 64 ∧
    FC.FC_LINELENGTH_TIMELINE_JSON = 110 := by
  have hac4 : ac ≤ 4 := hac
  interval_cases ac <;> simp <;> decide

/-- Witness for C9 at the concrete action tag 3 (read): the code is "RD "
with a trailing space. -/
theorem C9_action_codes_and_line_widths_witness :
    3 ≤ FC.FC_TIMELINE_ACTION_MAX ∧
    FC.FC_TIMELINE_ACTION_STR.get? 3 = some "RD " := by
  refine ⟨by decide, ?_⟩
  have h := C9_action_codes_and_line_widths 3 (by decide)
  exact h.2.1

/-- C4: an input exceeding the 2048-character bound is rejected before the
shared identifier counter is touched, so it never consumes an identifier;
while an in-bounds input whose backend insert fails does consume one,
leaving a permitted gap. -/
theorem C4_overlong_rejected_before_id (c : FC.InsertCall) (st : FC.FcDbState) :
    (2048 < c.cwsz →
       (FC.Fc_SqlInsertStr c st).1 = none ∧
       (FC.Fc_SqlInsertStr c st).2.qwIdStr = st.qwIdStr) ∧
    (c.cwsz ≤ 2048 → c.backendOk = false →
       (FC.Fc_SqlInsertStr c st).1 = none ∧
       (FC.Fc_SqlInsertStr c st).2.qwIdStr = st.qwIdStr + 1) := by
  constructor
  · intro hlen
    simp [FC.Fc_SqlInsertStr, hlen]
  · intro hlen hfail
    have hnot : ¬ 2048 < c.cwsz := Nat.not_lt.mpr hlen
    simp [FC.Fc_SqlInsertStr, hnot, hfail]

/-- Witness for C4: an over-long input (3000 characters) at counter 10 is
rejected with the counter left at 10; an in-bounds input with a failing
backend insert at counter 10 is rejected with the counter advanced to 11. -/
theorem C4_overlong_rejected_before_id_witness :
    (FC.Fc_SqlInsertStr ⟨3000, 0, 0, true⟩ ⟨10⟩).1 = none ∧
    (FC.Fc_SqlInsertStr ⟨3000, 0, 0, true⟩ ⟨10⟩).2.qwIdStr = 10 ∧
    (FC.Fc_SqlInsertStr ⟨100, 5, 7, false⟩ ⟨10⟩).1 = none ∧
    (FC.Fc_SqlInsertStr ⟨100, 5, 7, false⟩ ⟨10⟩).2.qwIdStr = 11 := by
  refine ⟨?_, ?_, ?_, ?_⟩
  · exact ((C4_overlong_rejected_before_id ⟨3000, 0, 0, true⟩ ⟨10⟩).1 (by decide)).1
  · exact ((C4_overlong_rejected_before_id ⟨3000, 0, 0, true⟩ ⟨10⟩).1 (by decide)).2
  · exact ((C4_overlong_rejected_before_id ⟨100, 5, 7, false⟩ ⟨10⟩).2 (by decide) rfl).1
  · exact ((C4_overlong_rejected_before_id ⟨100, 5, 7, false⟩ ⟨10⟩).2 (by decide) rfl).2

theorem poolReachable_le (single : Bool) (n : Nat) (h : FC.PoolReachable single n) :
    n ≤ FC.poolSize single := by
  induction h with
  | init => exact Nat.zero_le _
  | step n m hr hs ih =>
    cases hs with
    | acquire hle => exact hle
    | release hpos => exact le_trans (Nat.sub_le _ _) ih

/-- C7: in every reachable pool state at most FC_SQL_POOL_CONNECTION_NUM = 4
handles are checked out, and at most 1 when single-thread mode is enabled;
whenever a slot is free an acquire succeeds immediately, and right after any
release a waiting acquire succeeds, so acquires eventually succeed given
callers release promptly. -/
theorem C7_pool_exclusivity (single : Bool) (n : Nat) (h : FC.PoolReachable single n) :
    n ≤ FC.FC_SQL_POOL_CONNECTION_NUM ∧
    (single = true → n ≤ 1) ∧
    (n < FC.poolSize single → FC.PoolStep single n (n + 1)) ∧
    (0 < n → FC.PoolStep single (n - 1) n) := by
  have hle := poolReachable_le single n h
  have hsz : FC.poolSize single ≤ FC.FC_SQL_POOL_CONNECTION_NUM := by
    cases single <;> simp [FC.poolSize, FC.FC_SQL_POOL_CONNECTION_NUM]
  refine ⟨le_trans hle hsz, ?_, ?_, ?_⟩
  · intro hs
    subst hs
    simpa [FC.poolSize] using hle
  · intro hlt
    exact FC.PoolStep.acquire n hlt
  · intro hpos
    have hstep : FC.PoolStep single (n - 1) (n - 1 + 1) :=
      FC.PoolStep.acquire (n - 1) (by omega)
    have hn : n - 1 + 1 = n := Nat.succ_pred_eq_of_pos hpos
    rwa [hn] at hstep

/-- Witness for C7 at the reachable state with one handle checked out of the
4-slot pool (after a single acquire from the initial state). -/
theorem C7_pool_exclusivity_witness :
    (1 : Nat) ≤ FC.FC_SQL_POOL_CONNECTION_NUM ∧ FC.PoolStep false 0 1 :=
  ⟨(C7_pool_exclusivity false 1 (FC.PoolReachable.step 0 1 FC.PoolReachable.init
      (FC.PoolStep.acquire 0 (by decide)))).1,
   (C7_pool_exclusivity false 1 (FC.PoolReachable.step 0 1 FC.PoolReachable.init
      (FC.PoolStep.acquire 0 (by decide)))).2.2.2 (by decide)⟩

theorem sqlRetryLoop_spec (statuses : Nat → Nat) (fuel i : Nat) :
    ∃ k, i ≤ k ∧ k ≤ i + fuel ∧ FC.sqlRetryLoop statuses fuel i = statuses k ∧
      (∀ j, i ≤ j → j < k → FC.isBusyStatus (statuses j) = true) ∧
      (FC.isBusyStatus (statuses k) = false ∨ k = i + fuel) := by
  induction fuel generalizing i with
  | zero =>
    refine ⟨i, le_refl i, by omega, rfl, ?_, Or.inr (by omega)⟩
    intro j hj hjk
    omega
  | succ fuel ih =>
    by_cases hb : FC.isBusyStatus (statuses i) = true
    · obtain ⟨k, hik, hk, heq, hbusy, hend⟩ := ih (i + 1)
      refine ⟨k, by omega, by omega, ?_, ?_, ?_⟩
      · simpa [FC.sqlRetryLoop, hb] using heq
      · intro j hj hjk
        rcases Nat.eq_or_lt_of_le hj with rfl | hlt
        · exact hb
        · exact hbusy j hlt hjk
      · rcases hend with hend | hend
        · exact Or.inl hend
        · exact Or.inr (by omega)
    · refine ⟨i, le_refl i, by omega, ?_, ?_, Or.inl (by simpa using hb)⟩
      · simp [FC.sqlRetryLoop, hb]
      · intro j hj hjk
        omega

/-- C8: Fc_SqlExec and Fc_SqlQueryN surface a first-attempt non-busy status
immediately and unconverted; in general the surfaced status is that of some
attempt k within the retry bound such that every earlier attempt was
busy/locked and either attempt k was not busy or the bound was exhausted
(bounded backoff, not indefinite); and on every exit path the acquired
connection is released before returning (the pool checked-out count is
restored). -/
theorem C8_retry_bounded_and_release (b : Nat) (statuses : Nat → Nat) (pool : Nat)
    (queryResults : List Nat) (cRes : Nat) :
    (FC.isBusyStatus (statuses 0) = false →
       (FC.Fc_SqlExec b statuses pool).1 = statuses 0) ∧
    (∃ k, k ≤ b ∧ (FC.Fc_SqlExec b statuses pool).1 = statuses k ∧
       (∀ j, j < k → FC.isBusyStatus (statuses j) = true) ∧
       (FC.isBusyStatus (statuses k) = false ∨ k = b)) ∧
    (FC.Fc_SqlExec b statuses pool).2 = pool ∧
    (FC.Fc_SqlQueryN b statuses queryResults cRes pool).2 = pool ∧
    (FC.Fc_SqlQueryN b statuses queryResults cRes pool).1.1 =
      (FC.Fc_SqlExec b statuses pool).1 := by
  obtain ⟨k, h0k, hkb, heq, hbusy, hend⟩ := sqlRetryLoop_spec statuses b 0
  refine ⟨?_, ⟨k, by omega, ?_, ?_, ?_⟩, rfl, rfl, rfl⟩
  · intro h0
    cases b with
    | zero => rfl
    | succ fuel => simp [FC.Fc_SqlExec, FC.sqlRetryLoop, h0]
  · simpa [FC.Fc_SqlExec] using heq
  · intro j hj
    exact hbusy j (Nat.zero_le j) hj
  · rcases hend with hend | hend
    · exact Or.inl hend
    · exact Or.inr (by omega)

/-- Witness for C8: with a backend that is busy on the first attempt and OK
afterwards, the pool count is restored; with an always-OK backend the OK
status is surfaced immediately. -/
theorem C8_retry_bounded_and_release_witness :
    (FC.Fc_SqlExec 3 (fun i => if i == 0 then 5 else 0) 7).2 = 7 ∧
    (FC.Fc_SqlExec 3 (fun _ => 0) 7).1 = 0 := by
  refine ⟨(C8_retry_bounded_and_release 3 (fun i => if i == 0 then 5 else 0) 7 [] 0).2.2.1, ?_⟩
  have h := (C8_retry_bounded_and_release 3 (fun _ => 0) 7 [] 0).1 (by decide)
  simpa using h

theorem timelineInit_good : FC.TimelineGood FC.timelineInit := by
  constructor
  · intro r hr
    simp [FC.timelineInit] at hr
  · intro tp
    simp [FC.catRows, FC.timelineInit]

theorem timelineInsert_good (op : FC.TimelineInsert) (st : FC.FcTimelineState)
    (h : FC.TimelineGood st) : FC.TimelineGood (FC.timelineInsert op st) := by
  obtain ⟨hbound, hpair⟩ := h
  constructor
  · intro r hr
    simp only [FC.timelineInsert, List.mem_append, List.mem_singleton] at hr
    simp only [FC.timelineInsert]
    rcases hr with hr | rfl
    · obtain ⟨hid, hu, hj⟩ := hbound r hr
      refine ⟨le_trans hid (Nat.le_succ _), ?_, ?_⟩
      · by_cases htp : r.tp = op.tp
        · simp only [htp, if_pos rfl]
          exact le_trans (htp ▸ hu) (Nat.le_add_right _ _)
        · simpa [htp] using hu
      · by_cases htp : r.tp = op.tp
        · simp only [htp, if_pos rfl]
          exact le_trans (htp ▸ hj) (Nat.le_add_right _ _)
        · simpa [htp] using hj
    · refine ⟨le_refl _, ?_, ?_⟩ <;> simp
  · intro tp
    by_cases htp : op.tp = tp
    · have hcat : FC.catRows (FC.timelineInsert op st) tp =
          FC.catRows st tp ++ [⟨st.qwIdStr + 1, op.ft, op.tp, op.ac, op.pid,
            op.data64, st.sizeUTF8 op.tp, st.sizeJSON op.tp, op.cwszText⟩] := by
        simp [FC.catRows, FC.timelineInsert, List.filter_append, htp]
      rw [hcat]
      refine List.pairwise_append.mpr ⟨hpair tp, List.pairwise_singleton _ _, ?_⟩
      intro a ha b hb
      simp only [List.mem_singleton] at hb
      subst hb
      have hmem : a ∈ st.rows ∧ a.tp = tp := by
        simpa [FC.catRows, List.mem_filter] using ha
      obtain ⟨hid, hu, hj⟩ := hbound a hmem.1
      have hatp : a.tp = op.tp := by rw [hmem.2, htp]
      exact ⟨Nat.lt_succ_of_le hid, by simpa [hatp] using hu, by simpa [hatp] using hj⟩
    · have hcat : FC.catRows (FC.timelineInsert op st) tp = FC.catRows st tp := by
        simp [FC.catRows, FC.timelineInsert, List.filter_append, htp]
      rw [hcat]
      exact hpair tp

theorem runTimeline_good (ops : List FC.TimelineInsert) (st : FC.FcTimelineState)
    (h : FC.TimelineGood st) : FC.TimelineGood (FC.runTimeline ops st) := by
  induction ops generalizing st with
  | nil => exact h
  | cons op ops ih => exact ih _ (timelineInsert_good op st h)

/-- C3: after any sequence of insertions from the freshly initialized state,
within every category the stored rows have strictly increasing identifiers
and non-decreasing UTF-8 and JSON offset columns in identifier order; and
every single insertion preserves the timeline invariant. -/
theorem C3_offset_monotonicity (ops : List FC.TimelineInsert) (tp : Nat)
    (op : FC.TimelineInsert) (st : FC.FcTimelineState) (h : FC.TimelineGood st) :
    List.Pairwise
      (fun a b => a.id < b.id ∧ a.cszuOffset ≤ b.cszuOffset ∧ a.cszjOffset ≤ b.cszjOffset)
      (FC.catRows (FC.runTimeline ops FC.timelineInit) tp) ∧
    FC.TimelineGood (FC.timelineInsert op st) :=
  ⟨(runTimeline_good ops FC.timelineInit timelineInit_good).2 tp,
   timelineInsert_good op st h⟩

/-- Witness for C3: one concrete insertion into the freshly initialized
state preserves the timeline invariant (and category 1 of the state reached
by two concrete insertions is monotone). -/
theorem C3_offset_monotonicity_witness :
    FC.TimelineGood (FC.timelineInsert ⟨1, 0, 0, 0, 0, 10, 64, 110⟩ FC.timelineInit) :=
  (C3_offset_monotonicity [⟨1, 0, 0, 0, 0, 10, 64, 110⟩] 1
    ⟨1, 0, 0, 0, 0, 10, 64, 110⟩ FC.timelineInit timelineInit_good).2

theorem getLast?_mem_list (l : List FC.FC_MAP_TIMELINEENTRY) (m : FC.FC_MAP_TIMELINEENTRY)
    (h : l.getLast? = some m) : m ∈ l := by
  obtain ⟨hne, hm⟩ := List.mem_getLast?_eq_getLast (l := l) (x := m) (by simp [Option.mem_def, h])
  rw [hm]
  exact List.getLast_mem hne

theorem sorted_getLast_max (l : List FC.FC_MAP_TIMELINEENTRY) (m : FC.FC_MAP_TIMELINEENTRY) :
    List.Pairwise (fun a b => a.id < b.id) l → l.getLast? = some m →
    ∀ x ∈ l, x.id ≤ m.id := by
  induction l with
  | nil =>
    intro _ h
    simp at h
  | cons a l ih =>
    intro hsort h x hx
    cases l with
    | nil =>
      simp at h hx
      subst h
      subst hx
      exact le_refl _
    | cons b l' =>
      rw [List.getLast?_cons_cons] at h
      rcases List.mem_cons.mp hx with rfl | hx'
      · have hm : m ∈ b :: l' := getLast?_mem_list _ _ h
        exact le_of_lt ((List.pairwise_cons.mp hsort).1 m hm)
      · exact ih (List.pairwise_cons.mp hsort).2 h x hx'

theorem lastRowLE_mem (fJSON : Bool) (pos : Nat) (l : List FC.FC_MAP_TIMELINEENTRY)
    (r : FC.FC_MAP_TIMELINEENTRY) (h : FC.lastRowLE fJSON pos l = some r) :
    r ∈ l ∧ FC.entryOffset fJSON r ≤ pos := by
  induction l with
  | nil => simp [FC.lastRowLE] at h
  | cons a l ih =>
    simp only [FC.lastRowLE] at h
    cases ht : FC.lastRowLE fJSON pos l with
    | some r' =>
      rw [ht] at h
      have hr : r' = r := by simpa using h
      subst hr
      obtain ⟨hm, ho⟩ := ih ht
      exact ⟨List.mem_cons_of_mem a hm, ho⟩
    | none =>
      rw [ht] at h
      by_cases hoff : FC.entryOffset fJSON a ≤ pos
      · have hr : a = r := by simpa [hoff] using h
        subst hr
        exact ⟨List.mem_cons_self a l, hoff⟩
      · simp [hoff] at h

theorem lastRowLE_none (fJSON : Bool) (pos : Nat) (l : List FC.FC_MAP_TIMELINEENTRY)
    (h : FC.lastRowLE fJSON pos l = none) :
    ∀ r ∈ l, pos < FC.entryOffset fJSON r := by
  induction l with
  | nil =>
    intro r hr
    simp at hr
  | cons a l ih =>
    intro r hr
    simp only [FC.lastRowLE] at h
    cases ht : FC.lastRowLE fJSON pos l with
    | some r' =>
      rw [ht] at h
      simp at h
    | none =>
      rw [ht] at h
      by_cases hoff : FC.entryOffset fJSON a ≤ pos
      · simp [hoff] at h
      · rcases List.mem_cons.mp hr with rfl | hr'
        · exact Nat.not_le.mp hoff
        · exact ih ht r hr'

theorem lastRowLE_none_of (fJSON : Bool) (pos : Nat) (l : List FC.FC_MAP_TIMELINEENTRY)
    (hall : ∀ r ∈ l, pos < FC.entryOffset fJSON r) :
    FC.lastRowLE fJSON pos l = none := by
  induction l with
  | nil => rfl
  | cons a l ih =>
    have ht := ih (fun r hr => hall r (List.mem_cons_of_mem a hr))
    have ha := hall a (List.mem_cons_self a l)
    simp [FC.lastRowLE, ht, Nat.not_le.mpr ha]

theorem lastRowLE_greatest (fJSON : Bool) (pos : Nat) (l : List FC.FC_MAP_TIMELINEENTRY)
    (r : FC.FC_MAP_TIMELINEENTRY) :
    List.Pairwise (fun a b => a.id < b.id) l → FC.lastRowLE fJSON pos l = some r →
    ∀ x ∈ l, FC.entryOffset fJSON x ≤ pos → x.id ≤ r.id := by
  induction l with
  | nil =>
    intro _ h
    simp [FC.lastRowLE] at h
  | cons a l ih =>
    intro hsort h x hx hxoff
    simp only [FC.lastRowLE] at h
    cases ht : FC.lastRowLE fJSON pos l with
    | some r' =>
      rw [ht] at h
      have hr : r' = r := by simpa using h
      subst hr
      rcases List.mem_cons.mp hx with rfl | hx'
      · have hm := (lastRowLE_mem fJSON pos l r' ht).1
        exact le_of_lt ((List.pairwise_cons.mp hsort).1 r' hm)
      · exact ih (List.pairwise_cons.mp hsort).2 ht x hx' hxoff
    | none =>
      rw [ht] at h
      by_cases hoff : FC.entryOffset fJSON a ≤ pos
      · have hr : a = r := by simpa [hoff] using h
        subst hr
        rcases List.mem_cons.mp hx with rfl | hx'
        · exact le_refl _
        · exact absurd hxoff (Nat.not_le.mpr (lastRowLE_none fJSON pos l ht x hx'))
      · simp [hoff] at h

/-- C1: over a non-empty category table whose rows have strictly increasing
identifiers and non-decreasing starting offsets in the selected flat file,
positionToId returns the greatest row identifier whose starting offset is
≤ the file position; a position before the first row's offset returns the
first row's identifier; and a position at or past the last row's starting
offset (in particular at or beyond the last row's end) returns the last
row's identifier. -/
theorem C1_positionToId (r0 : FC.FC_MAP_TIMELINEENTRY) (rs : List FC.FC_MAP_TIMELINEENTRY)
    (fJSON : Bool) (pos : Nat)
    (hsort : List.Pairwise
      (fun a b => a.id < b.id ∧ FC.entryOffset fJSON a ≤ FC.entryOffset fJSON b)
      (r0 :: rs)) :
    (∀ rq ∈ r0 :: rs, FC.entryOffset fJSON rq ≤ pos →
       ∃ rmax, rmax ∈ r0 :: rs ∧
         FC.FcTimeline_GetIdFromPosition (r0 :: rs) fJSON pos = some rmax.id ∧
         FC.entryOffset fJSON rmax ≤ pos ∧
         ∀ x ∈ r0 :: rs, FC.entryOffset fJSON x ≤ pos → x.id ≤ rmax.id) ∧
    (pos < FC.entryOffset fJSON r0 →
       FC.FcTimeline_GetIdFromPosition (r0 :: rs) fJSON pos = some r0.id) ∧
    (∀ rlast, (r0 :: rs).getLast? = some rlast →
       FC.entryOffset fJSON rlast ≤ pos →
       FC.FcTimeline_GetIdFromPosition (r0 :: rs) fJSON pos = some rlast.id) := by
  have hid : List.Pairwise (fun a b => a.id < b.id) (r0 :: rs) :=
    hsort.imp (fun h => h.1)
  have hoffs : List.Pairwise
      (fun a b => FC.entryOffset fJSON a ≤ FC.entryOffset fJSON b) (r0 :: rs) :=
    hsort.imp (fun h => h.2)
  refine ⟨?_, ?_, ?_⟩
  · intro rq hrq hrqoff
    cases ht : FC.lastRowLE fJSON pos (r0 :: rs) with
    | none => exact absurd hrqoff (Nat.not_le.mpr (lastRowLE_none fJSON pos _ ht rq hrq))
    | some r =>
      obtain ⟨hm, ho⟩ := lastRowLE_mem fJSON pos _ r ht
      refine ⟨r, hm, ?_, ho, lastRowLE_greatest fJSON pos _ r hid ht⟩
      simp [FC.FcTimeline_GetIdFromPosition, ht]
  · intro hlt
    have hnone : FC.lastRowLE fJSON pos (r0 :: rs) = none := by
      apply lastRowLE_none_of
      intro x hx
      rcases List.mem_cons.mp hx with rfl | hx'
      · exact hlt
      · exact lt_of_lt_of_le hlt ((List.pairwise_cons.mp hoffs).1 x hx')
    simp [FC.FcTimeline_GetIdFromPosition, hnone]
  · intro rlast hlast hlastoff
    have hlmem : rlast ∈ r0 :: rs := getLast?_mem_list _ _ hlast
    cases ht : FC.lastRowLE fJSON pos (r0 :: rs) with
    | none => exact absurd hlastoff (Nat.not_le.mpr (lastRowLE_none fJSON pos _ ht rlast hlmem))
    | some r =>
      obtain ⟨hm, ho⟩ := lastRowLE_mem fJSON pos _ r ht
      have h1 : rlast.id ≤ r.id := lastRowLE_greatest fJSON pos _ r hid ht rlast hlmem hlastoff
      have h2 : r.id ≤ rlast.id := sorted_getLast_max _ rlast hid hlast r hm
      have heq : r.id = rlast.id := le_antisymm h2 h1
      simp [FC.FcTimeline_GetIdFromPosition, ht, heq]

/-- Witness for C1: over a two-row table with starting offsets 10 and 64, a
file position of 5 (before the first row's offset) resolves to the first
row's identifier 1. -/
theorem C1_positionToId_witness :
    FC.FcTimeline_GetIdFromPosition
      [⟨1, 0, 1, 0, 0, 0, 10, 20, 5⟩, ⟨2, 0, 1, 0, 0, 0, 64, 110, 5⟩] false 5 = some 1 := by
  have h := (C1_positionToId ⟨1, 0, 1, 0, 0, 0, 10, 20, 5⟩
    [⟨2, 0, 1, 0, 0, 0, 64, 110, 5⟩] false 5 (by decide)).2.1 (by decide)
  simpa using h

/-- C5: rangeQuery fails exactly on backend error; otherwise it succeeds
with at most cId rows, each with identifier ≥ qwId and matching the
requested category (category 0 meaning all), in ascending identifier order;
in particular on an empty table it succeeds with zero rows. -/
theorem C5_rangeQuery (backendErr : Bool) (rows : List FC.FC_MAP_TIMELINEENTRY)
    (tp qwId cId : Nat)
    (hsort : List.Pairwise (fun a b => a.id < b.id) rows) :
    ((FC.FcTimelineMap_GetFromIdRange backendErr rows tp qwId cId = none) ↔
       backendErr = true) ∧
    (backendErr = false →
       ∃ l, FC.FcTimelineMap_GetFromIdRange backendErr rows tp qwId cId = some l ∧
         l.length ≤ cId ∧
         (∀ r ∈ l, qwId ≤ r.id ∧ (tp = 0 ∨ r.tp = tp)) ∧
         List.Pairwise (fun a b => a.id < b.id) l) ∧
    FC.FcTimelineMap_GetFromIdRange false [] tp qwId cId = some [] := by
  refine ⟨?_, ?_, by simp [FC.FcTimelineMap_GetFromIdRange]⟩
  · cases backendErr <;> simp [FC.FcTimelineMap_GetFromIdRange]
  · intro hbe
    subst hbe
    refine ⟨(rows.filter
        (fun r => (tp == 0 || r.tp == tp) && decide (qwId ≤ r.id))).take cId,
      by simp [FC.FcTimelineMap_GetFromIdRange], List.length_take_le _ _, ?_, ?_⟩
    · intro r hr
      have hrf := List.mem_of_mem_take hr
      have hp := (List.mem_filter.mp hrf).2
      simp only [Bool.and_eq_true, Bool.or_eq_true, beq_iff_eq, decide_eq_true_eq] at hp
      exact ⟨hp.2, hp.1⟩
    · exact (hsort.sublist (List.filter_sublist rows)).sublist (List.take_sublist _ _)

/-- Witness for C5: on the empty table the query succeeds with zero rows,
and with an erroring backend it fails. -/
theorem C5_rangeQuery_witness :
    FC.FcTimelineMap_GetFromIdRange false [] 0 5 3 = some [] ∧
    FC.FcTimelineMap_GetFromIdRange true [] 0 5 3 = none := by
  constructor
  · exact (C5_rangeQuery false [] 0 5 3 (by decide)).2.2
  · exact (C5_rangeQuery true [] 0 5 3 (by decide)).1.mpr rfl

theorem buildViews_spec (render : FC.FC_MAP_TIMELINEENTRY → List Char)
    (rows : List FC.FC_MAP_TIMELINEENTRY) :
    ∀ acc : List Char, ∀ v ∈ FC.buildViews render acc.length rows,
      v.1 + v.2.1 ≤ (acc ++ (rows.map render).flatten).length ∧
      ((acc ++ (rows.map render).flatten).drop v.1).take v.2.1 = render v.2.2 := by
  induction rows with
  | nil =>
    intro acc v hv
    simp [FC.buildViews] at hv
  | cons r rs ih =>
    intro acc v hv
    simp only [FC.buildViews, List.mem_cons] at hv
    rcases hv with rfl | hv
    · constructor
      · simp only [List.map_cons, List.flatten_cons, List.length_append]
        omega
      · simp only [List.map_cons, List.flatten_cons]
        rw [List.drop_left, List.take_left]
    · have hlen : acc.length + (render r).length = (acc ++ render r).length := by
        simp [List.length_append]
      rw [hlen] at hv
      have := ih (acc ++ render r) v hv
      simpa [List.map_cons, List.flatten_cons, List.append_assoc] using this

/-- C6: the result set's single shared text allocation has total length
equal to the sum of the rendered line lengths of the returned rows, and
each row view is a sub-range (offset and length) of that shared allocation
whose extracted text is exactly the row's rendered line; and concretely,
with rows 1..100 in category 1, rangeQuery(1, 50, 10) returns exactly rows
50..59 in ascending order. -/
theorem C6_shared_allocation (render : FC.FC_MAP_TIMELINEENTRY → List Char)
    (rows : List FC.FC_MAP_TIMELINEENTRY) :
    (FC.buildTimelineMap render rows).cbMultiText =
      (rows.map (fun r => (render r).length)).sum ∧
    (∀ v ∈ (FC.buildTimelineMap render rows).pMap,
       v.1 + v.2.1 ≤ (FC.buildTimelineMap render rows).cbMultiText ∧
       ((FC.buildTimelineMap render rows).wszMultiText.drop v.1).take v.2.1 =
         render v.2.2) ∧
    ((FC.FcTimelineMap_GetFromIdRange false FC.rows100 1 50 10).getD []).map
      (fun r => r.id) = [50, 51, 52, 53, 54, 55, 56, 57, 58, 59] := by
  refine ⟨?_, ?_, ?_⟩
  · simp only [FC.buildTimelineMap, List.length_flatten, List.map_map]
    rfl
  · intro v hv
    have h := buildViews_spec render rows [] v
      (by simpa [FC.buildTimelineMap] using hv)
    simpa [FC.buildTimelineMap] using h
  · decide
